import Mathlib

/-!
Verification of the PanGuess gene-prediction pipeline (`src/Pangloss/PanGuess.py`).

Python strings are embedded as `List Char` (`PyStr`), Python ints as `Int`,
attribute rows (`[contig_id, gene_id, start, stop, annotations, tag]`) as the
structure `Attr`, and the CSV rows fed to the GTF converters as `List PyStr`.
Python's `list.sort`/`sorted` (a stable sort by key) is embedded as Mathlib's
`List.insertionSort`, which is stable and sorted for the same total preorder
and therefore extensionally identical.

The functions `Pairwise`, `LocationOverlap` and the class `ExonerateGene` are
imported by `PanGuess.py` from the repository's `Tools` module, which is not
among the provided sources; they are modelled from the specification (see the
doc comments on `pairwiseList`, `LocationOverlap` and `ExonerateGeneM`).
-/

namespace PanGuess

/-- Python strings are sequences of characters. -/
abbrev PyStr := List Char

/-- Lexicographic (code-point) comparison of two character lists; the semantics
of Python's `<` on `str` values, used by tuple-key sorting. -/
def chLt : PyStr → PyStr → Bool
  | [], [] => false
  | [], _ :: _ => true
  | _ :: _, [] => false
  | a :: as, b :: bs => if a < b then true else if b < a then false else chLt as bs

/-- One step of Python `str.split(sep)` for a non-empty separator, driven by
explicit fuel so that the definition is structurally recursive (the fuel is
always sufficient at the call site in `pySplit`). -/
def pySplitGo (sep : PyStr) : Nat → PyStr → PyStr → List PyStr
  | 0, acc, _ => [acc.reverse]
  | _ + 1, acc, [] => [acc.reverse]
  | fuel + 1, acc, c :: rest =>
    if sep.isPrefixOf (c :: rest) then
      acc.reverse :: pySplitGo sep fuel [] ((c :: rest).drop sep.length)
    else
      pySplitGo sep fuel (c :: acc) rest

/-- Python `s.split(sep)` for a non-empty separator: non-overlapping,
left-to-right splitting; always returns at least one piece. -/
def pySplit (sep s : PyStr) : List PyStr :=
  pySplitGo sep (s.length + 1) [] s

/-- Decimal digits of a natural number, fuel-driven for structural recursion
(the fuel is always sufficient at the call site in `pyIntStr`). -/
def natDigitsAux : Nat → Nat → PyStr
  | 0, _ => []
  | fuel + 1, n =>
    if n = 0 then [] else natDigitsAux fuel (n / 10) ++ [Char.ofNat (48 + n % 10)]

/-- Python `str(i)` for an integer `i`: the decimal representation, with a
leading minus sign for negative values. -/
def pyIntStr (i : Int) : PyStr :=
  if i < 0 then '-' :: natDigitsAux ((-i).toNat + 1) (-i).toNat
  else if i = 0 then ['0']
  else natDigitsAux (i.toNat + 1) i.toNat

/-- Value of a decimal digit character, or `none` for any other character. -/
def digVal (c : Char) : Option Nat :=
  if '0' ≤ c ∧ c ≤ '9' then some (c.toNat - 48) else none

/-- Accumulating decimal parser over a character list; fails on the first
non-digit character. -/
def pyNatAux : PyStr → Nat → Option Nat
  | [], acc => some acc
  | c :: cs, acc =>
    match digVal c with
    | some d => pyNatAux cs (acc * 10 + d)
    | none => none

/-- Python `int(s)` on the well-formed inputs that reach it in `PanGuess.py`
(an optional minus sign followed by decimal digits); malformed input, on which
Python raises `ValueError`, is mapped to `0`. -/
def pyInt (s : PyStr) : Int :=
  match s with
  | '-' :: c :: cs =>
    match pyNatAux (c :: cs) 0 with
    | some n => -(n : Int)
    | none => 0
  | _ =>
    match s, pyNatAux s 0 with
    | _ :: _, some n => (n : Int)
    | _, _ => 0

/-- Python `s.strip(chars)`: removes characters belonging to the set `cs` from
both ends of `s` (a character-set strip, not a prefix/suffix removal). -/
def pyStripChars (cs : PyStr) (s : PyStr) : PyStr :=
  ((s.dropWhile (fun c => cs.contains c)).reverse.dropWhile
    (fun c => cs.contains c)).reverse

/-- Python `min` over a list of integers. Python raises `ValueError` on an
empty list; in `PanGuess.py` every evaluated occurrence has a non-empty
argument, and the empty case is given the junk value `0`. -/
def pyMin : List Int → Int
  | [] => 0
  | x :: xs => xs.foldl min x

/-- Python `max` over a list of integers, with the same convention on the
(never validly reached) empty list as `pyMin`. -/
def pyMax : List Int → Int
  | [] => 0
  | x :: xs => xs.foldl max x

/-- Resolution of a Python slice bound against a sequence of length `n`:
negative bounds count from the end, and the result is clamped to `[0, n]`. -/
def pyIdx (n : Nat) (i : Int) : Nat :=
  if i < 0 then ((n : Int) + i).toNat else min i.toNat n

/-- Python `s[a:b]` on a character sequence. -/
def pySlice (s : PyStr) (a b : Int) : PyStr :=
  (s.take (pyIdx s.length b)).drop (pyIdx s.length a)

/-- Python `s[a:]` on a character sequence. -/
def pySliceFrom (s : PyStr) (a : Int) : PyStr :=
  s.drop (pyIdx s.length a)

/-- A CSV row as produced by `csv.reader`: a list of string fields. -/
abbrev Row := List PyStr

/-- Python `row[i]` for the in-bounds accesses performed by the converters;
out-of-bounds access (Python `IndexError`) is mapped to the empty string. -/
def fld (row : Row) (i : Nat) : PyStr :=
  row.getD i []

/-- Modelled from the spec: `Pairwise` from the `Tools` module, imported by
`PanGuess.py` but absent from the provided sources. Spec section 9 describes
it as a sequence producer yielding `(current, Option next)` pairs in a single
finite pass: `[x1, x2, ..., xn]` yields `(x1, some x2), ..., (xn, none)`. -/
def pairwiseList {α : Type} : List α → List (α × Option α)
  | [] => []
  | [x] => [(x, none)]
  | x :: y :: rest => (x, some y) :: pairwiseList (y :: rest)

/-- The attribute record `[contig_id, gene_id, start, stop, annotations, tag]`
flowing through the pipeline. -/
structure Attr where
  contig_id : PyStr
  gene_id : PyStr
  start : Int
  stop : Int
  ann : PyStr
  tag : PyStr
deriving Repr, DecidableEq

/-- The boolean form of the sort key `lambda x: (x[0], int(x[2]))`: record `a`
precedes record `b` when its `(contig_id, start)` tuple is less than or equal
to `b`'s under Python tuple comparison. -/
def attrKeyLE (a b : Attr) : Bool :=
  if a.contig_id = b.contig_id then a.start ≤ b.start else chLt a.contig_id b.contig_id

/-- The sort-key relation as a decidable proposition, for `List.insertionSort`. -/
def attrLe (a b : Attr) : Prop := attrKeyLE a b = true

instance : DecidableRel attrLe := fun a b => by unfold attrLe; infer_instance

/-- Embedding of Python's stable sort by `(contig_id, start)` key (used by
`list.sort` in `MergeAttributes` and `sorted` in the two GTF converters). -/
def pySortAtt (l : List Attr) : List Attr :=
  l.insertionSort attrLe

/-- Modelled from the spec: `LocationOverlap` from the `Tools` module, imported
by `PanGuess.py` but absent from the provided sources. Spec section 4.3: two
records on the same contig overlap when one's start falls within the other's
`[start, end]` span, or vice versa (a symmetric containment/partial-overlap
test); on overlap the returned value's second component is the gene id of the
second (later-starting, or fully contained) record, which `MergeAttributes`
appends to its removal list via `overlap[1]`. -/
def LocationOverlap (call next_call : Attr) : Option (PyStr × PyStr) :=
  if call.contig_id = next_call.contig_id ∧
      ((call.start ≤ next_call.start ∧ next_call.start ≤ call.stop) ∨
       (next_call.start ≤ call.start ∧ call.start ≤ next_call.stop)) then
    some (call.gene_id, next_call.gene_id)
  else
    none

/-- The removal list built by the pairwise sweep in `MergeAttributes`
(`to_remove`): the second component of every detected overlap, in sweep
order. -/
def toRemoveList (unique_calls : List Attr) : List PyStr :=
  (pairwiseList unique_calls).filterMap (fun p =>
    match p.2 with
    | some next_call => (LocationOverlap p.1 next_call).map (fun ov => ov.2)
    | none => none)

/-- `MergeAttributes(first_attributes, second_attributes)` from `PanGuess.py`
(lines 228-248): concatenate, stable-sort by `(contig_id, start)`, mark the
second record of every overlapping adjacent pair for removal, and keep the
calls whose `gene_id` is not in the removal list. -/
def MergeAttributes (first_attributes second_attributes : List Attr) : List Attr :=
  let unique_calls := pySortAtt (first_attributes ++ second_attributes)
  let to_remove := toRemoveList unique_calls
  unique_calls.filter (fun call => decide (call.gene_id ∉ to_remove))

/-- The annotation string `"GeneMark={gene_id};IS=False;Introns={introns}"`
built by `GeneMarkGTFConverter`. -/
def gmAnnString (gene_id : PyStr) (introns : Int) : PyStr :=
  "GeneMark=".toList ++ gene_id ++ ";IS=False;Introns=".toList ++ pyIntStr introns

/-- The pairwise sweep of `GeneMarkGTFConverter` (lines 192-221): groups are
delimited by a change in the quoted identifier of column 8; every row of a
group contributes its two coordinates to `locs` and rows whose feature column
is `"exon"` bump `exon_count`; at a group boundary (or end of file) one
attribute record is emitted and the accumulators reset. -/
def gmLoop (tag : PyStr) :
    List (Row × Option Row) → List Int → Int → List Attr
  | [], _, _ => []
  | (row, some next_row) :: rest, locs, exon_count =>
    let exon_count := if fld row 2 = "exon".toList then exon_count + 1 else exon_count
    let locs := locs ++ [pyInt (fld row 3), pyInt (fld row 4)]
    if pySplit "\"".toList (fld row 8) = pySplit "\"".toList (fld next_row 8) then
      gmLoop tag rest locs exon_count
    else
      let contig_id := (pySplit " ".toList (fld row 0)).getD 0 []
      let gene_id := (pySplit "\"".toList (fld row 8)).getD 1 []
      ⟨contig_id, gene_id, pyMin locs, pyMax locs,
        gmAnnString gene_id (exon_count - 1), tag⟩ :: gmLoop tag rest [] 0
  | (row, none) :: rest, locs, exon_count =>
    let exon_count := if fld row 2 = "exon".toList then exon_count + 1 else exon_count
    let locs := locs ++ [pyInt (fld row 3), pyInt (fld row 4)]
    let contig_id := (pySplit " ".toList (fld row 0)).getD 0 []
    let gene_id := (pySplit "\"".toList (fld row 8)).getD 1 []
    ⟨contig_id, gene_id, pyMin locs, pyMax locs,
      gmAnnString gene_id (exon_count - 1), tag⟩ :: gmLoop tag rest [] 0

/-- `GeneMarkGTFConverter(gtf, tag)` from `PanGuess.py` (lines 181-225):
pairwise sweep over the GTF rows followed by a stable sort of the emitted
attribute records by `(contig_id, start)`. -/
def GeneMarkGTFConverter (gtf : List Row) (tag : PyStr) : List Attr :=
  pySortAtt (gmLoop tag (pairwiseList gtf) [] 0)

/-- The gene groups of the grouped-by-identity sweep: maximal runs of
consecutive GTF rows whose quoted-identifier keys `row[8].split("\"")` are
equal (the sweep closes a group exactly when the key of the next row
differs, or at end of file). -/
def chunkByKey : List Row → List (List Row)
  | [] => []
  | [r] => [[r]]
  | r :: r' :: rs =>
    if pySplit "\"".toList (fld r 8) = pySplit "\"".toList (fld r' 8) then
      match chunkByKey (r' :: rs) with
      | [] => [[r]]
      | g :: gs => (r :: g) :: gs
    else
      [r] :: chunkByKey (r' :: rs)

/-- The number of exon-typed rows in one gene group. -/
def countExon (c : List Row) : Nat :=
  (c.filter (fun row => decide (fld row 2 = "exon".toList))).length

/-- The coordinate pairs the rows of one gene group contribute to `locs`. -/
def groupLocs (c : List Row) : List Int :=
  c.flatMap (fun row => [pyInt (fld row 3), pyInt (fld row 4)])

/-- The attribute record the sweep emits for one gene group, given the
accumulators carried into the group (`[]` and `0` except transiently): contig
and gene id are read from the group's last row, the span is `min`/`max` over
all accumulated coordinates, and the embedded `Introns` value is the group's
exon-row count minus one, with no floor. -/
def gmEmitChunk (tag : PyStr) (locs0 : List Int) (ec0 : Int) (c : List Row) : Attr :=
  let rl := c.getLastD []
  let gene_id := (pySplit "\"".toList (fld rl 8)).getD 1 []
  ⟨(pySplit " ".toList (fld rl 0)).getD 0 [], gene_id,
    pyMin (locs0 ++ groupLocs c), pyMax (locs0 ++ groupLocs c),
    gmAnnString gene_id (ec0 + (countExon c : Int) - 1), tag⟩

/-- The records emitted for a list of gene groups, the first of which absorbs
the carried accumulators. -/
def gmChunkEmits (tag : PyStr) (locs : List Int) (ec : Int) : List (List Row) → List Attr
  | [] => []
  | c :: cs => gmEmitChunk tag locs ec c :: cs.map (gmEmitChunk tag [] 0)

/-- A genome contig as parsed from the FASTA file: identifier and sequence. -/
structure ContigM where
  id : PyStr
  seq : PyStr
deriving Repr, DecidableEq

/-- One synthetic non-coding-region record emitted by `ExtractNCR`: the contig
identifier and the two numbers interpolated into the FASTA id
`{contig}_NCR_{a}_{b}`, together with the extracted genome slice. -/
structure NCRRec where
  contig : PyStr
  a : Int
  b : Int
  extract : PyStr
deriving Repr, DecidableEq

/-- The per-contig loop body of `ExtractNCR` (lines 292-305), with `coding`
the records of `attributes` whose `contig_id` equals the contig's id.
`coding.index(gene) == 0` holds exactly when `gene` equals the first element
of `coding` (Python's `list.index` returns the first occurrence). -/
def carveContig (coding : List Attr) (seq : ContigM) : List NCRRec :=
  (pairwiseList coding).filterMap (fun p =>
    let gene := p.1
    if coding.head? = some gene then
      if gene.start ≠ 0 then
        some ⟨seq.id, 0, gene.start - 1, pySlice seq.seq 0 (gene.start - 2)⟩
      else
        none
    else
      match p.2 with
      | none =>
        some ⟨seq.id, gene.stop + 1, (seq.seq.length : Int) + 1,
          pySliceFrom seq.seq gene.stop⟩
      | some next_gene =>
        some ⟨seq.id, gene.stop + 1, next_gene.start - 1,
          pySlice seq.seq gene.stop (next_gene.start - 2)⟩)

/-- `ExtractNCR(attributes, genome)` (lines 278-309), in structured form:
for every contig of the genome, carve the regions around the calls whose
`contig_id` matches the contig. -/
def extractNCRRecs (attributes : List Attr) (db : List ContigM) : List NCRRec :=
  db.flatMap (fun seq =>
    carveContig (attributes.filter (fun x => decide (x.contig_id = seq.id))) seq)

/-- The FASTA string `">{contig}_NCR_{a}_{b}\n{extract}\n"` actually appended
to the `ncr` list by `ExtractNCR`. -/
def ncrFasta (r : NCRRec) : PyStr :=
  '>' :: r.contig ++ "_NCR_".toList ++ pyIntStr r.a ++ "_".toList ++ pyIntStr r.b
    ++ '\n' :: r.extract ++ ['\n']

/-- `ExtractNCR` as in the source: the list of formatted FASTA strings. -/
def ExtractNCR (attributes : List Attr) (db : List ContigM) : List PyStr :=
  (extractNCRRecs attributes db).map ncrFasta

/-- The prefix of `s` that ends just before the last occurrence of `"_NCR_"`
(occurrences counted with overlap, as the greedy regex does), or `none` when
`"_NCR_"` does not occur in `s`. This is exactly
`re.match(r"(.*)_NCR_", s).group()[:-5]`: the greedy `(.*)` extends to the
last position at which `"_NCR_"` still matches, `group()` is the whole match,
and `[:-5]` removes the trailing `"_NCR_"`. -/
def contigBeforeLastNCR : PyStr → Option PyStr
  | [] => none
  | c :: rest =>
    match contigBeforeLastNCR rest with
    | some p => some (c :: p)
    | none => if "_NCR_".toList.isPrefixOf (c :: rest) then some [] else none

/-- The contig id extracted in `TransDecoderGTFToAttributes` from a synthetic
sequence identifier. With no `"_NCR_"` in the identifier Python raises
`AttributeError` (`.group()` on `None`); that never-valid case is given the
junk value `[]`. -/
def contigFromId (s : PyStr) : PyStr :=
  (contigBeforeLastNCR s).getD []

/-- `map(int, row[0].split("_")[-2:])[0]`: the global start parsed from the
last two underscore-separated fields of the identifier. -/
def tdGlobalStart (s : PyStr) : Int :=
  let parts := pySplit "_".toList s
  pyInt ((parts.drop (parts.length - 2)).getD 0 [])

/-- The annotation string `"TransDecoder={gene_id};IS=False;Introns={introns}"`
built by `TransDecoderGTFToAttributes`. -/
def tdAnnString (gene_id : PyStr) (introns : Int) : PyStr :=
  "TransDecoder=".toList ++ gene_id ++ ";IS=False;Introns=".toList ++ pyIntStr introns

/-- The accumulator variables of `TransDecoderGTFToAttributes`
(lines 366-371). -/
structure TDState where
  locs : List Int
  exon_count : Int
  contig_id : PyStr
  gene_id : PyStr
  annotations : PyStr
deriving Repr, DecidableEq

/-- The initial accumulator state of `TransDecoderGTFToAttributes`. -/
def tdInit : TDState := ⟨[], 0, [], [], []⟩

/-- Processing of one valid 9-column row (lines 379-390): the contig id and
global offset are recovered from the synthetic identifier in column 0; an
`"exon"` feature bumps `exon_count`; a `"CDS"` feature rebases the relative
coordinates of columns 3-4 by `global_start + relative - 1`, stores them in
`locs`, and records the gene id (column 8, second `;`-field, with the
character set `"Parent="` stripped from both ends) and annotation string. -/
def tdProcessRow (row : Row) (st : TDState) : TDState :=
  let contig_id := contigFromId (fld row 0)
  let g0 := tdGlobalStart (fld row 0)
  let exon_count := if fld row 2 = "exon".toList then st.exon_count + 1 else st.exon_count
  if fld row 2 = "CDS".toList then
    let start := g0 + pyInt (fld row 3) - 1
    let stop := g0 + pyInt (fld row 4) - 1
    let gene_id := pyStripChars "Parent=".toList
      ((pySplit ";".toList (row.getLastD [])).getD 1 [])
    ⟨[start, stop], exon_count, contig_id, gene_id,
      tdAnnString gene_id (exon_count - 1)⟩
  else
    ⟨st.locs, exon_count, contig_id, st.gene_id, st.annotations⟩

/-- The record emitted at a group boundary of `TransDecoderGTFToAttributes`
(lines 398 and 404). -/
def tdEmit (tag : PyStr) (st : TDState) : Attr :=
  ⟨st.contig_id, st.gene_id, pyMin st.locs, pyMax st.locs, st.annotations, tag⟩

/-- The pairwise sweep of `TransDecoderGTFToAttributes` (lines 375-406):
while a next row exists, a non-empty row is processed when it has exactly 9
columns (comment rows are ignored) and an empty row closes the group, emitting
one record and resetting `locs` and `exon_count`; on the final row (no next
row) a record is emitted without processing that row. -/
def tdLoop (tag : PyStr) : List (Row × Option Row) → TDState → List Attr
  | [], _ => []
  | (row, some _) :: rest, st =>
    if row ≠ [] then
      if row.length = 9 then
        tdLoop tag rest (tdProcessRow row st)
      else
        tdLoop tag rest st
    else
      tdEmit tag st ::
        tdLoop tag rest ⟨[], 0, st.contig_id, st.gene_id, st.annotations⟩
  | (_, none) :: rest, st =>
    tdEmit tag st ::
      tdLoop tag rest ⟨[], 0, st.contig_id, st.gene_id, st.annotations⟩

/-- `TransDecoderGTFToAttributes(tdir, tag)` from `PanGuess.py`
(lines 354-409), taking the parsed GTF rows as input: pairwise sweep followed
by a stable sort of the emitted records by `(contig_id, start)`. -/
def TransDecoderGTFToAttributes (gtf : List Row) (tag : PyStr) : List Attr :=
  pySortAtt (tdLoop tag (pairwiseList gtf) tdInit)

/-- Modelled from the spec: the `ExonerateGene` class from the `Tools` module,
imported by `PanGuess.py` but absent from the provided sources. Spec section 3
lists its fields: matched reference identifier, protein and nucleotide
sequence strings, contig id, internal-stop flag, intron count, and a genomic
location pair. `ref` carries the formatted `"Exonerate=..."` key-value fact
and `internal_stop` the formatted flag, as interpolated by
`GetExonerateAttributes`. -/
structure ExonerateGeneM where
  id : PyStr
  contig_id : PyStr
  ref : PyStr
  internal_stop : PyStr
  introns : Int
  locs : Int × Int
  prot : PyStr
  nucl : PyStr
deriving Repr, DecidableEq

/-- `GetExonerateAttributes(exonerate_genes, tag)` from `PanGuess.py`
(lines 140-157): each `ExonerateGene` is mapped 1:1 to one attribute record,
with annotation `"{ref};{internal_stop};{introns}"`. -/
def GetExonerateAttributes (exonerate_genes : List ExonerateGeneM) (tag : PyStr) :
    List Attr :=
  exonerate_genes.map (fun gene =>
    ⟨gene.contig_id, gene.id, gene.locs.1, gene.locs.2,
      gene.ref ++ ';' :: gene.internal_stop ++ ';' :: pyIntStr gene.introns, tag⟩)

/-- Modelled from the spec: well-formedness of the `ExonerateGene` objects
built by the absent `Tools` module. Spec section 3 stores every attribute
record's span with `start <= end` and its annotation with a non-negative
intron count, and `GetExonerateAttributes` copies the object's location pair
and intron count into the record verbatim, so the class guarantees an ordered
location pair and a non-negative intron count. -/
def ExonerateGeneWF (g : ExonerateGeneM) : Prop :=
  g.locs.1 ≤ g.locs.2 ∧ 0 ≤ g.introns

instance (g : ExonerateGeneM) : Decidable (ExonerateGeneWF g) := by
  unfold ExonerateGeneWF
  infer_instance

/-- A sequence record (`Bio.SeqRecord`) reduced to the fields `PanGuess.py`
uses: identifier and sequence content. -/
structure SeqRecordM where
  id : PyStr
  seq : PyStr
deriving Repr, DecidableEq

/-- An identifier-indexed sequence store (`Bio.SeqIO.index`), per spec
section 3 a read-only mapping from sequence id to content; a missing key
raises `KeyError` in Python, modelled through `Option`. -/
abbrev SeqStore := PyStr → Option PyStr

/-- The collections produced by `ConstructGeneModelSets`: the protein models,
the nucleotide models, and the attribute list as it stands after the loop
(the source mutates `gene[1]` of each dispatched record in place). -/
structure GeneModelOut where
  prot_models : List SeqRecordM
  nucl_models : List SeqRecordM
  final_attributes : List Attr
deriving Repr, DecidableEq

/-- The canonical identifier `"{tag}|{contig}_{start}_{stop}"` assigned in the
GeneMark and TransDecoder branches of `ConstructGeneModelSets`. -/
def canonicalId (tag : PyStr) (gene : Attr) : PyStr :=
  tag ++ '|' :: gene.contig_id ++ '_' :: pyIntStr gene.start ++ '_' :: pyIntStr gene.stop

/-- The `if`/`elif` dispatch of `ConstructGeneModelSets` (lines 433-448):
a `"TransDecoder"`- or `"GeneMark"`-prefixed record looks its current
`gene_id` up in the matching protein and nucleotide stores (`KeyError`, hence
a raised exception, when absent), retags both sequences and the record with
the canonical identifier; any other record passes through unchanged. -/
def cgmsStep1 (gm_prot_db gm_nucl_db td_prot_db td_nucl_db : SeqStore)
    (tag : PyStr) (gene : Attr) :
    Except PyStr (List SeqRecordM × List SeqRecordM × Attr) :=
  if "TransDecoder".toList.isPrefixOf gene.ann then
    match td_prot_db gene.gene_id, td_nucl_db gene.gene_id with
    | some p, some n =>
      let newid := canonicalId tag gene
      .ok ([⟨newid, p⟩], [⟨newid, n⟩], { gene with gene_id := newid })
    | _, _ => .error "KeyError".toList
  else if "GeneMark".toList.isPrefixOf gene.ann then
    match gm_prot_db gene.gene_id, gm_nucl_db gene.gene_id with
    | some p, some n =>
      let newid := canonicalId tag gene
      .ok ([⟨newid, p⟩], [⟨newid, n⟩], { gene with gene_id := newid })
    | _, _ => .error "KeyError".toList
  else
    .ok ([], [], gene)

/-- The separate `if` for `"Exonerate"`-prefixed records (lines 449-457),
evaluated after the `if`/`elif` chain on the possibly-retagged record: the
record is resolved against the in-memory alignment-result list by identifier
equality (`match[0]` raises `IndexError` when no result matches). -/
def cgmsStep2 (exonerate_genes : List ExonerateGeneM) (tag : PyStr)
    (gene1 : Attr) : Except PyStr (List SeqRecordM × List SeqRecordM × Attr) :=
  if "Exonerate".toList.isPrefixOf gene1.ann then
    match exonerate_genes.filter (fun x => decide (x.id = gene1.gene_id)) with
    | [] => .error "IndexError".toList
    | m :: _ =>
      let newid := tag ++ '|' :: m.id
      .ok ([⟨newid, m.prot⟩], [⟨newid, m.nucl⟩], { gene1 with gene_id := newid })
  else
    .ok ([], [], gene1)

/-- The loop of `ConstructGeneModelSets` (lines 432-457): each record passes
through the `if`/`elif` dispatch and then the separate `"Exonerate"` check
(the three prefixes are mutually exclusive, so at most one branch fires per
record); the first raised exception aborts the whole loop. -/
def cgmsLoop (exonerate_genes : List ExonerateGeneM)
    (gm_prot_db gm_nucl_db td_prot_db td_nucl_db : SeqStore) (tag : PyStr) :
    List Attr → Except PyStr (List SeqRecordM × List SeqRecordM × List Attr)
  | [] => .ok ([], [], [])
  | gene :: rest =>
    match cgmsStep1 gm_prot_db gm_nucl_db td_prot_db td_nucl_db tag gene with
    | .error e => .error e
    | .ok (ps1, ns1, gene1) =>
      match cgmsStep2 exonerate_genes tag gene1 with
      | .error e => .error e
      | .ok (ps2, ns2, gene2) =>
        match cgmsLoop exonerate_genes gm_prot_db gm_nucl_db td_prot_db td_nucl_db
            tag rest with
        | .error e => .error e
        | .ok (ps, ns, atts) =>
          .ok (ps1 ++ ps2 ++ ps, ns1 ++ ns2 ++ ns, gene2 :: atts)

/-- `ConstructGeneModelSets(attributes, exonerate_genes, workdir, genome, tag)`
from `PanGuess.py` (lines 412-470), with the four indexed sequence files
abstracted as stores and the file writes represented by the returned
collections: protein models, nucleotide models, and the attribute rows written
to the `.attributes` file (the input records after the loop's in-place
`gene[1]` rewrites). -/
def ConstructGeneModelSets (attributes : List Attr)
    (exonerate_genes : List ExonerateGeneM)
    (gm_prot_db gm_nucl_db td_prot_db td_nucl_db : SeqStore) (tag : PyStr) :
    Except PyStr GeneModelOut :=
  match cgmsLoop exonerate_genes gm_prot_db gm_nucl_db td_prot_db td_nucl_db
      tag attributes with
  | .error e => .error e
  | .ok (ps, ns, atts) => .ok ⟨ps, ns, atts⟩

/-- The intron count embedded in an annotation string: the integer after the
last occurrence of `"Introns="`. -/
def annIntrons (ann : PyStr) : Int :=
  pyInt ((pySplit "Introns=".toList ann).getLastD [])

theorem chLt_trans : ∀ a b c : PyStr, chLt a b = true → chLt b c = true → chLt a c = true
  | [], [], _, h1, _ => by simp [chLt] at h1
  | [], _ :: _, [], _, h2 => by simp [chLt] at h2
  | [], _ :: _, _ :: _, _, _ => by simp [chLt]
  | _ :: _, [], _, h1, _ => by simp [chLt] at h1
  | _ :: _, _ :: _, [], _, h2 => by simp [chLt] at h2
  | a :: as, b :: bs, c :: cs, h1, h2 => by
    simp only [chLt] at h1 h2 ⊢
    by_cases hab : a < b
    · by_cases hbc : b < c
      · rw [if_pos (lt_trans hab hbc)]
      · by_cases hcb : c < b
        · rw [if_neg hbc, if_pos hcb] at h2
          exact absurd h2 (by simp)
        · have hbc' : b = c := le_antisymm (not_lt.mp hcb) (not_lt.mp hbc)
          have hac : a < c := by rw [← hbc']; exact hab
          rw [if_pos hac]
    · by_cases hba : b < a
      · rw [if_neg hab, if_pos hba] at h1
        exact absurd h1 (by simp)
      · have hab' : a = b := le_antisymm (not_lt.mp hba) (not_lt.mp hab)
        rw [if_neg hab, if_neg hba] at h1
        by_cases hbc : b < c
        · have hac : a < c := by rw [hab']; exact hbc
          rw [if_pos hac]
        · by_cases hcb : c < b
          · rw [if_neg hbc, if_pos hcb] at h2
            exact absurd h2 (by simp)
          · have hbc' : b = c := le_antisymm (not_lt.mp hcb) (not_lt.mp hbc)
            rw [if_neg hbc, if_neg hcb] at h2
            have hac : ¬ a < c := by rw [hab', hbc']; exact lt_irrefl c
            have hca : ¬ c < a := by rw [hab', hbc']; exact lt_irrefl c
            rw [if_neg hac, if_neg hca]
            exact chLt_trans as bs cs h1 h2

theorem chLt_asymm : ∀ a b : PyStr, chLt a b = true → chLt b a = false
  | [], [], h => by simp [chLt] at h
  | [], _ :: _, _ => by simp [chLt]
  | _ :: _, [], h => by simp [chLt] at h
  | a :: as, b :: bs, h => by
    simp only [chLt] at h ⊢
    by_cases hab : a < b
    · rw [if_neg (lt_asymm hab), if_pos hab]
    · by_cases hba : b < a
      · rw [if_neg hab, if_pos hba] at h
        exact absurd h (by simp)
      · rw [if_neg hab, if_neg hba] at h
        rw [if_neg hba, if_neg hab]
        exact chLt_asymm as bs h

theorem chLt_total : ∀ a b : PyStr, a ≠ b → chLt a b = true ∨ chLt b a = true
  | [], [], h => absurd rfl h
  | [], _ :: _, _ => by simp [chLt]
  | _ :: _, [], _ => by simp [chLt]
  | a :: as, b :: bs, h => by
    simp only [chLt]
    by_cases hab : a < b
    · exact Or.inl (by rw [if_pos hab])
    · by_cases hba : b < a
      · exact Or.inr (by rw [if_pos hba])
      · have hab' : a = b := le_antisymm (not_lt.mp hba) (not_lt.mp hab)
        subst hab'
        have hne : as ≠ bs := fun hh => h (by rw [hh])
        rcases chLt_total as bs hne with hh | hh
        · exact Or.inl (by rw [if_neg (lt_irrefl a), if_neg (lt_irrefl a)]; exact hh)
        · exact Or.inr (by rw [if_neg (lt_irrefl a), if_neg (lt_irrefl a)]; exact hh)

instance : IsTotal Attr attrLe :=
  ⟨fun a b => by
    unfold attrLe attrKeyLE
    by_cases h : a.contig_id = b.contig_id
    · simp only [h, if_pos rfl, if_pos]
      rcases Int.le_total a.start b.start with hle | hle
      · exact Or.inl (by simpa using hle)
      · exact Or.inr (by simpa using hle)
    · rw [if_neg h, if_neg (fun hh => h hh.symm)]
      exact chLt_total _ _ h⟩

instance : IsTrans Attr attrLe :=
  ⟨fun a b c hab hbc => by
    unfold attrLe attrKeyLE at *
    by_cases h1 : a.contig_id = b.contig_id <;>
      by_cases h2 : b.contig_id = c.contig_id
    · have h3 : a.contig_id = c.contig_id := h1.trans h2
      rw [if_pos h1] at hab
      rw [if_pos h2] at hbc
      rw [if_pos h3]
      simp only [decide_eq_true_eq] at hab hbc ⊢
      omega
    · have h3 : a.contig_id ≠ c.contig_id := fun hh => h2 (h1.symm.trans hh)
      rw [if_neg h2] at hbc
      rw [if_neg h3, h1]
      exact hbc
    · have h3 : a.contig_id ≠ c.contig_id := fun hh => h1 (hh.trans h2.symm)
      rw [if_neg h1] at hab
      rw [if_neg h3, ← h2]
      exact hab
    · rw [if_neg h1] at hab
      rw [if_neg h2] at hbc
      by_cases h3 : a.contig_id = c.contig_id
      · exfalso
        rw [h3] at hab
        have := chLt_asymm _ _ hbc
        rw [this] at hab
        exact Bool.false_ne_true hab
      · rw [if_neg h3]
        exact chLt_trans _ _ _ hab hbc⟩

theorem mem_pairwiseList_fst {α : Type} :
    ∀ (l : List α) (p : α × Option α), p ∈ pairwiseList l → p.1 ∈ l
  | [], _, h => by simp [pairwiseList] at h
  | [x], p, h => by
    simp only [pairwiseList, List.mem_singleton] at h
    subst h
    simp
  | x :: y :: rest, p, h => by
    simp only [pairwiseList, List.mem_cons] at h
    rcases h with h | h
    · subst h
      simp
    · have := mem_pairwiseList_fst (y :: rest) p h
      exact List.mem_cons_of_mem x this

theorem getLast_none_mem_pairwiseList {α : Type} :
    ∀ (l : List α) (h : l ≠ []), (l.getLast h, none) ∈ pairwiseList l
  | [x], _ => by simp [pairwiseList, List.getLast]
  | x :: y :: rest, h => by
    simp only [pairwiseList, List.mem_cons]
    right
    have hg : (x :: y :: rest).getLast h = (y :: rest).getLast (by simp) :=
      List.getLast_cons _
    rw [hg]
    exact getLast_none_mem_pairwiseList (y :: rest) (by simp)

theorem foldl_min_le : ∀ (xs : List Int) (a : Int), xs.foldl min a ≤ a
  | [], a => le_refl a
  | x :: xs, a => le_trans (foldl_min_le xs (min a x)) (min_le_left a x)

theorem le_foldl_max : ∀ (xs : List Int) (a : Int), a ≤ xs.foldl max a
  | [], a => le_refl a
  | x :: xs, a => le_trans (le_max_left a x) (le_foldl_max xs (max a x))

theorem pyMin_le_pyMax : ∀ l : List Int, pyMin l ≤ pyMax l
  | [] => le_refl 0
  | x :: xs => le_trans (foldl_min_le xs x) (le_foldl_max xs x)

theorem LocationOverlap_eq_some (a b : Attr)
    (h : (LocationOverlap a b).isSome = true) :
    LocationOverlap a b = some (a.gene_id, b.gene_id) := by
  by_cases hc : a.contig_id = b.contig_id ∧
      ((a.start ≤ b.start ∧ b.start ≤ a.stop) ∨
       (b.start ≤ a.start ∧ a.start ≤ b.stop))
  · simp [LocationOverlap, hc]
  · simp [LocationOverlap, hc] at h

/-- Agreement of two attribute records on every field except `gene_id` (the
one field the materializer rewrites in place). -/
def agreesExceptGeneId (a b : Attr) : Prop :=
  a.contig_id = b.contig_id ∧ a.start = b.start ∧ a.stop = b.stop ∧
    a.ann = b.ann ∧ a.tag = b.tag

theorem agreesExceptGeneId_refl (a : Attr) : agreesExceptGeneId a a :=
  ⟨rfl, rfl, rfl, rfl, rfl⟩

theorem agreesExceptGeneId_trans {a b c : Attr} (h1 : agreesExceptGeneId a b)
    (h2 : agreesExceptGeneId b c) : agreesExceptGeneId a c :=
  ⟨h1.1.trans h2.1, h1.2.1.trans h2.2.1, h1.2.2.1.trans h2.2.2.1,
    h1.2.2.2.1.trans h2.2.2.2.1, h1.2.2.2.2.trans h2.2.2.2.2⟩

theorem cgmsStep1_ok_agrees {gp gn tp tn : SeqStore} {tag : PyStr} {gene : Attr}
    {ps ns : List SeqRecordM} {g1 : Attr}
    (h : cgmsStep1 gp gn tp tn tag gene = .ok (ps, ns, g1)) :
    agreesExceptGeneId gene g1 := by
  unfold cgmsStep1 at h
  split_ifs at h
  · rcases htp : tp gene.gene_id with _ | p <;>
      rcases htn : tn gene.gene_id with _ | n <;>
      simp [htp, htn] at h
    obtain ⟨-, -, h3⟩ := h
    rw [← h3]
    exact ⟨rfl, rfl, rfl, rfl, rfl⟩
  · rcases hgp : gp gene.gene_id with _ | p <;>
      rcases hgn : gn gene.gene_id with _ | n <;>
      simp [hgp, hgn] at h
    obtain ⟨-, -, h3⟩ := h
    rw [← h3]
    exact ⟨rfl, rfl, rfl, rfl, rfl⟩
  · simp at h
    obtain ⟨-, -, h3⟩ := h
    rw [← h3]
    exact agreesExceptGeneId_refl gene

theorem cgmsStep2_ok_agrees {exg : List ExonerateGeneM} {tag : PyStr}
    {gene : Attr} {ps ns : List SeqRecordM} {g2 : Attr}
    (h : cgmsStep2 exg tag gene = .ok (ps, ns, g2)) :
    agreesExceptGeneId gene g2 := by
  unfold cgmsStep2 at h
  split_ifs at h
  · rcases hm : exg.filter (fun x => decide (x.id = gene.gene_id)) with _ | ⟨m, ms⟩ <;>
      simp [hm] at h
    obtain ⟨-, -, h3⟩ := h
    rw [← h3]
    exact ⟨rfl, rfl, rfl, rfl, rfl⟩
  · simp at h
    obtain ⟨-, -, h3⟩ := h
    rw [← h3]
    exact agreesExceptGeneId_refl gene

theorem gm_not_td {s : PyStr} (h : "GeneMark".toList.isPrefixOf s = true) :
    "TransDecoder".toList.isPrefixOf s = true → False := by
  intro ht
  have hG : "GeneMark".toList = 'G' :: "eneMark".toList := rfl
  have hT : "TransDecoder".toList = 'T' :: "ransDecoder".toList := rfl
  rw [hG] at h
  rw [hT] at ht
  cases s with
  | nil => simp [List.isPrefixOf] at h
  | cons d ds =>
    simp only [List.isPrefixOf, Bool.and_eq_true, beq_iff_eq] at h ht
    rw [← h.1] at ht
    exact absurd ht.1 (by decide)

theorem cgmsStep1_error_td {gp gn tp tn : SeqStore} {tag : PyStr} {gene : Attr}
    (hpre : "TransDecoder".toList.isPrefixOf gene.ann = true)
    (hmiss : tp gene.gene_id = none ∨ tn gene.gene_id = none) :
    ∃ e, cgmsStep1 gp gn tp tn tag gene = .error e := by
  refine ⟨"KeyError".toList, ?_⟩
  unfold cgmsStep1
  rw [if_pos hpre]
  rcases htp : tp gene.gene_id with _ | p <;>
    rcases htn : tn gene.gene_id with _ | n <;>
    simp_all

theorem cgmsStep1_error_gm {gp gn tp tn : SeqStore} {tag : PyStr} {gene : Attr}
    (hpre : "GeneMark".toList.isPrefixOf gene.ann = true)
    (hmiss : gp gene.gene_id = none ∨ gn gene.gene_id = none) :
    ∃ e, cgmsStep1 gp gn tp tn tag gene = .error e := by
  refine ⟨"KeyError".toList, ?_⟩
  unfold cgmsStep1
  rw [if_neg (fun ht => gm_not_td hpre ht), if_pos hpre]
  rcases hgp : gp gene.gene_id with _ | p <;>
    rcases hgn : gn gene.gene_id with _ | n <;>
    simp_all

theorem cgmsLoop_error_cons {exg : List ExonerateGeneM}
    {gp gn tp tn : SeqStore} {tag : PyStr} {gene : Attr} {rest : List Attr}
    (h : ∃ e, cgmsLoop exg gp gn tp tn tag rest = .error e) :
    ∃ e, cgmsLoop exg gp gn tp tn tag (gene :: rest) = .error e := by
  obtain ⟨e, he⟩ := h
  rcases h1 : cgmsStep1 gp gn tp tn tag gene with e1 | ⟨ps1, ns1, g1⟩
  · exact ⟨e1, by simp only [cgmsLoop, h1]⟩
  · rcases h2 : cgmsStep2 exg tag g1 with e2 | ⟨ps2, ns2, g2⟩
    · exact ⟨e2, by simp only [cgmsLoop, h1, h2]⟩
    · exact ⟨e, by simp only [cgmsLoop, h1, h2, he]⟩

theorem cgmsLoop_agrees {exg : List ExonerateGeneM} {gp gn tp tn : SeqStore}
    {tag : PyStr} :
    ∀ (attrs : List Attr) (ps ns : List SeqRecordM) (atts : List Attr),
      cgmsLoop exg gp gn tp tn tag attrs = .ok (ps, ns, atts) →
      List.Forall₂ agreesExceptGeneId attrs atts
  | [], ps, ns, atts, h => by
    simp only [cgmsLoop, Except.ok.injEq, Prod.mk.injEq] at h
    obtain ⟨-, -, h3⟩ := h
    subst h3
    exact List.Forall₂.nil
  | gene :: rest, ps, ns, atts, h => by
    rw [cgmsLoop] at h
    rcases h1 : cgmsStep1 gp gn tp tn tag gene with e1 | ⟨ps1, ns1, g1⟩
    · rw [h1] at h
      simp at h
    rcases h2 : cgmsStep2 exg tag g1 with e2 | ⟨ps2, ns2, g2⟩
    · rw [h1] at h
      simp only [h2] at h
      simp at h
    rcases h3 : cgmsLoop exg gp gn tp tn tag rest with e3 | ⟨ps', ns', atts'⟩
    · rw [h1] at h
      simp only [h2, h3] at h
      simp at h
    rw [h1] at h
    simp only [h2, h3, Except.ok.injEq, Prod.mk.injEq] at h
    obtain ⟨-, -, hatts⟩ := h
    subst hatts
    exact List.Forall₂.cons
      (agreesExceptGeneId_trans (cgmsStep1_ok_agrees h1) (cgmsStep2_ok_agrees h2))
      (cgmsLoop_agrees rest ps' ns' atts' h3)

theorem gmLoop_start_le (tag : PyStr) :
    ∀ (pairs : List (Row × Option Row)) (locs : List Int) (ec : Int) (rec : Attr),
      rec ∈ gmLoop tag pairs locs ec → rec.start ≤ rec.stop
  | [], _, _, _, h => by simp [gmLoop] at h
  | (row, some next_row) :: rest, locs, ec, rec, h => by
    rw [gmLoop] at h
    by_cases hc : pySplit "\"".toList (fld row 8) = pySplit "\"".toList (fld next_row 8)
    · rw [if_pos hc] at h
      exact gmLoop_start_le tag rest _ _ rec h
    · rw [if_neg hc] at h
      rcases List.mem_cons.mp h with h | h
      · subst h
        exact pyMin_le_pyMax _
      · exact gmLoop_start_le tag rest _ _ rec h
  | (row, none) :: rest, locs, ec, rec, h => by
    rw [gmLoop] at h
    rcases List.mem_cons.mp h with h | h
    · subst h
      exact pyMin_le_pyMax _
    · exact gmLoop_start_le tag rest _ _ rec h

theorem countExon_cons (r : Row) (c : List Row) :
    countExon (r :: c) =
      (if fld r 2 = "exon".toList then 1 else 0) + countExon c := by
  simp only [countExon, List.filter_cons]
  by_cases hx : fld r 2 = "exon".toList
  · rw [if_pos (decide_eq_true hx), if_pos hx, List.length_cons]
    omega
  · rw [if_neg (fun h => hx (of_decide_eq_true h)), if_neg hx, Nat.zero_add]

theorem countExon_pos {c : List Row} {row : Row} (hrow : row ∈ c)
    (hex : fld row 2 = "exon".toList) : 1 ≤ countExon c := by
  have hmem : row ∈ c.filter (fun row => decide (fld row 2 = "exon".toList)) :=
    List.mem_filter.mpr ⟨hrow, by simp [hex]⟩
  have hpos := List.length_pos.mpr (List.ne_nil_of_mem hmem)
  simp only [countExon]
  omega

theorem gmEmitChunk_singleton (tag : PyStr) (locs : List Int) (ec : Int) (r : Row) :
    gmEmitChunk tag locs ec [r] =
      ⟨(pySplit " ".toList (fld r 0)).getD 0 [],
        (pySplit "\"".toList (fld r 8)).getD 1 [],
        pyMin (locs ++ [pyInt (fld r 3), pyInt (fld r 4)]),
        pyMax (locs ++ [pyInt (fld r 3), pyInt (fld r 4)]),
        gmAnnString ((pySplit "\"".toList (fld r 8)).getD 1 [])
          ((if fld r 2 = "exon".toList then ec + 1 else ec) - 1), tag⟩ := by
  have hcnt : countExon [r] = if fld r 2 = "exon".toList then 1 else 0 := by
    rw [countExon_cons]
    rfl
  have hloc : groupLocs [r] = [pyInt (fld r 3), pyInt (fld r 4)] := by
    simp [groupLocs]
  have harg : ec + ((if fld r 2 = "exon".toList then 1 else 0 : Nat) : Int) - 1 =
      (if fld r 2 = "exon".toList then ec + 1 else ec) - 1 := by
    by_cases hx : fld r 2 = "exon".toList
    · rw [if_pos hx, if_pos hx, Nat.cast_one]
    · rw [if_neg hx, if_neg hx, Nat.cast_zero, add_zero]
  simp only [gmEmitChunk, hcnt, hloc, List.getLastD_cons, List.getLastD_nil, harg]

theorem gmEmitChunk_cons (tag : PyStr) (locs : List Int) (ec : Int) (r x : Row)
    (c : List Row) :
    gmEmitChunk tag locs ec (r :: x :: c) =
      gmEmitChunk tag (locs ++ [pyInt (fld r 3), pyInt (fld r 4)])
        (if fld r 2 = "exon".toList then ec + 1 else ec) (x :: c) := by
  have hlast : (r :: x :: c).getLastD [] = (x :: c).getLastD [] := by
    rw [List.getLastD_cons, List.getLastD_cons, List.getLastD_cons]
  have hassoc : locs ++ groupLocs (r :: x :: c) =
      (locs ++ [pyInt (fld r 3), pyInt (fld r 4)]) ++ groupLocs (x :: c) := by
    simp [groupLocs, List.append_assoc]
  have harg : ec + (countExon (r :: x :: c) : Int) - 1 =
      (if fld r 2 = "exon".toList then ec + 1 else ec) +
        (countExon (x :: c) : Int) - 1 := by
    rw [countExon_cons r (x :: c)]
    by_cases hx : fld r 2 = "exon".toList
    · rw [if_pos hx, if_pos hx]
      push_cast
      ring
    · rw [if_neg hx, if_neg hx]
      push_cast
      ring
  simp only [gmEmitChunk, hlast, hassoc, harg]

theorem chunkByKey_cons : ∀ (r : Row) (rs : List Row),
    ∃ t cs, chunkByKey (r :: rs) = (r :: t) :: cs
  | _, [] => ⟨[], [], rfl⟩
  | r, r' :: rs => by
    obtain ⟨t, cs, h⟩ := chunkByKey_cons r' rs
    by_cases hk : pySplit "\"".toList (fld r 8) = pySplit "\"".toList (fld r' 8)
    · exact ⟨r' :: t, cs, by rw [chunkByKey, if_pos hk, h]⟩
    · exact ⟨[], (r' :: t) :: cs, by rw [chunkByKey, if_neg hk, h]⟩

theorem gmChunkEmits_map (tag : PyStr) :
    ∀ l : List (List Row), gmChunkEmits tag [] 0 l = l.map (gmEmitChunk tag [] 0)
  | [] => rfl
  | _ :: _ => rfl

theorem gmLoop_eq_chunks (tag : PyStr) :
    ∀ (gtf : List Row) (locs : List Int) (ec : Int),
      gmLoop tag (pairwiseList gtf) locs ec =
        gmChunkEmits tag locs ec (chunkByKey gtf)
  | [], _, _ => rfl
  | [r], locs, ec => by
    show gmLoop tag [(r, none)] locs ec = gmChunkEmits tag locs ec [[r]]
    simp only [gmLoop, gmChunkEmits, gmEmitChunk_singleton, List.map_nil]
  | r :: r' :: rs, locs, ec => by
    show gmLoop tag ((r, some r') :: pairwiseList (r' :: rs)) locs ec = _
    by_cases hk : pySplit "\"".toList (fld r 8) = pySplit "\"".toList (fld r' 8)
    · obtain ⟨t, cs, hch⟩ := chunkByKey_cons r' rs
      simp only [gmLoop]
      rw [if_pos hk, gmLoop_eq_chunks tag (r' :: rs), chunkByKey, if_pos hk, hch]
      simp only [gmChunkEmits]
      rw [gmEmitChunk_cons]
    · simp only [gmLoop]
      rw [if_neg hk, gmLoop_eq_chunks tag (r' :: rs), chunkByKey, if_neg hk,
        gmChunkEmits_map tag]
      show _ :: _ = gmChunkEmits tag locs ec ([r] :: chunkByKey (r' :: rs))
      rw [gmChunkEmits, gmEmitChunk_singleton]

theorem gmConverter_eq_chunks (gtf : List Row) (tag : PyStr) :
    GeneMarkGTFConverter gtf tag =
      pySortAtt ((chunkByKey gtf).map (gmEmitChunk tag [] 0)) := by
  rw [GeneMarkGTFConverter, gmLoop_eq_chunks tag gtf [] 0, gmChunkEmits_map]

theorem gmConverter_ann_group (gtf : List Row) (tag : PyStr) (rec : Attr)
    (h : rec ∈ GeneMarkGTFConverter gtf tag) :
    ∃ c ∈ chunkByKey gtf, ∃ gid,
      rec.ann = gmAnnString gid ((countExon c : Int) - 1) := by
  rw [gmConverter_eq_chunks] at h
  simp only [pySortAtt] at h
  obtain ⟨c, hc, hrec⟩ := List.mem_map.mp ((List.mem_insertionSort attrLe).mp h)
  refine ⟨c, hc, (pySplit "\"".toList (fld (c.getLastD []) 8)).getD 1 [], ?_⟩
  rw [← hrec]
  simp only [gmEmitChunk]
  congr 1
  omega

theorem tdLoop_start_le (tag : PyStr) :
    ∀ (pairs : List (Row × Option Row)) (st : TDState) (rec : Attr),
      rec ∈ tdLoop tag pairs st → rec.start ≤ rec.stop
  | [], _, _, h => by simp [tdLoop] at h
  | (row, some nr) :: rest, st, rec, h => by
    rw [tdLoop] at h
    by_cases h1 : row ≠ []
    · rw [if_pos h1] at h
      by_cases h2 : row.length = 9
      · rw [if_pos h2] at h
        exact tdLoop_start_le tag rest _ rec h
      · rw [if_neg h2] at h
        exact tdLoop_start_le tag rest _ rec h
    · rw [if_neg h1] at h
      rcases List.mem_cons.mp h with h | h
      · subst h
        exact pyMin_le_pyMax _
      · exact tdLoop_start_le tag rest _ rec h
  | (row, none) :: rest, st, rec, h => by
    rw [tdLoop] at h
    rcases List.mem_cons.mp h with h | h
    · subst h
      exact pyMin_le_pyMax _
    · exact tdLoop_start_le tag rest _ rec h

/-- Shorthand for a concrete attribute record with empty annotation and tag. -/
def attrOf (c g : String) (s e : Int) : Attr :=
  ⟨c.toList, g.toList, s, e, [], []⟩

/-- The first record of the spec's merge scenario. -/
def scnG1 : Attr :=
  ⟨"chr1".toList, "g1".toList, 100, 200, "M1=g1;IS=False;Introns=0".toList, "t1".toList⟩

/-- The second record of the spec's merge scenario. -/
def scnG2 : Attr :=
  ⟨"chr1".toList, "g2".toList, 150, 250, "M2=g2;IS=False;Introns=0".toList, "t1".toList⟩

/-- A chain of three same-contig records in which consecutive pairs overlap:
`a` overlaps `b` and `b` overlaps `c`. -/
def chainA : Attr := attrOf "chr1" "a" 0 10

/-- Middle record of the overlap chain. -/
def chainB : Attr := attrOf "chr1" "b" 5 20

/-- Last record of the overlap chain. -/
def chainC : Attr := attrOf "chr1" "c" 15 30

/-- A long call spanning two shorter calls that are not adjacent-overlapping
with each other: after one merge pass the two survivors overlap. -/
def nestP : Attr := attrOf "chr1" "a" 0 100

/-- Short call overlapping `nestP` only. -/
def nestQ : Attr := attrOf "chr1" "b" 5 10

/-- Short call overlapping `nestP` but not `nestQ`. -/
def nestR : Attr := attrOf "chr1" "c" 50 60

/-- Two non-overlapping sorted records, a fixed point of the merge resolver. -/
def calmA : Attr := attrOf "chr1" "a" 0 10

/-- Second non-overlapping record. -/
def calmB : Attr := attrOf "chr1" "b" 20 30

/-- Record whose gene id is shared with `dupC` on another contig. -/
def dupA : Attr := attrOf "chr1" "x" 0 10

/-- Record marked for removal by its overlap with `dupA`. -/
def dupB : Attr := attrOf "chr1" "y" 5 20

/-- Non-overlapping record on another contig sharing `dupB`'s gene id. -/
def dupC : Attr := attrOf "chr2" "y" 100 200

/-- A single-exon GeneMark GTF row for gene `geneA`. -/
def gmRowExon : Row :=
  ["chr1 x".toList, "GeneMark.hmm".toList, "exon".toList, "11".toList, "250".toList,
    ".".toList, "+".toList, "0".toList,
    "gene_id \"geneA\"; transcript_id \"geneA.t1\";".toList]

/-- A GeneMark GTF row whose only feature is a CDS (no exon row in the
group). -/
def gmRowCDS : Row :=
  ["chr1 x".toList, "GeneMark.hmm".toList, "CDS".toList, "11".toList, "250".toList,
    ".".toList, "+".toList, "0".toList,
    "gene_id \"geneB\"; transcript_id \"geneB.t1\";".toList]

/-- An exon-typed GeneMark GTF row of the mixed two-row group for `geneC`. -/
def gmRowExonC : Row :=
  ["chr1 x".toList, "GeneMark.hmm".toList, "exon".toList, "11".toList, "100".toList,
    ".".toList, "+".toList, "0".toList,
    "gene_id \"geneC\"; transcript_id \"geneC.t1\";".toList]

/-- A CDS-typed GeneMark GTF row sharing `gmRowExonC`'s quoted identifier, so
the two rows form one mixed exon/CDS gene group. -/
def gmRowCDSC : Row :=
  ["chr1 x".toList, "GeneMark.hmm".toList, "CDS".toList, "40".toList, "90".toList,
    ".".toList, "+".toList, "0".toList,
    "gene_id \"geneC\"; transcript_id \"geneC.t1\";".toList]

/-- A concrete well-formed `ExonerateGene` object for the alignment-result
mapper. -/
def exGeneW : ExonerateGeneM :=
  ⟨"gene1".toList, "chr1".toList, "Exonerate=ref1".toList, "False".toList, 0,
    (3, 9), "MP".toList, "MN".toList⟩

/-- The spec's TransDecoder scenario row: a CDS at relative coordinates
`(120, 340)` under the synthetic identifier `chr3_NCR_5000_6000`. -/
def tdScnRow : Row :=
  ["chr3_NCR_5000_6000".toList, "transdecoder".toList, "CDS".toList, "120".toList,
    "340".toList, ".".toList, "+".toList, ".".toList, "ID=x;Parent=g1.p1".toList]

/-- A 30-base contig used by the carver scenarios. -/
def carveContigIn : ContigM :=
  ⟨"chr1".toList, "ACGTACGTACGTACGTACGTACGTACGTAC".toList⟩

/-- A single gene call on `carveContigIn`, spanning positions 5 to 10. -/
def soloGene : Attr := attrOf "chr1" "g" 5 10

/-- First of two non-overlapping sorted calls on `carveContigIn`. -/
def duoG1 : Attr := attrOf "chr1" "g1" 5 10

/-- Second of two non-overlapping sorted calls on `carveContigIn`. -/
def duoG2 : Attr := attrOf "chr1" "g2" 20 25

/-- A GeneMark-origin record fed to the materializer. -/
def matRec : Attr :=
  ⟨"chr1".toList, "g1".toList, 1, 9, "GeneMark=g1;IS=False;Introns=0".toList,
    "t0".toList⟩

/-- A sequence store holding the sequence `"MK"` under every identifier. -/
def fullStore : SeqStore := fun _ => some "MK".toList

/-- A sequence store with no entries. -/
def emptyStore : SeqStore := fun _ => none

theorem pySortAtt_sorted_eq {l : List Attr} (h : List.Sorted attrLe l) :
    pySortAtt l = l :=
  h.insertionSort_eq

/-- C1 (amended): for any two input lists, whenever two consecutive records of
the sorted concatenation overlap, the later record's gene id is marked and the
later record is dropped from the output; the earlier-starting record survives
provided its own gene id was not marked through a different overlapping pair.
In the spec's scenario exactly `g2` is dropped and only `g1`'s record
remains. -/
theorem C1_merge_second_dropped :
    (∀ (l1 l2 : List Attr) (a b : Attr),
        (a, some b) ∈ pairwiseList (pySortAtt (l1 ++ l2)) →
        (LocationOverlap a b).isSome = true →
        b ∉ MergeAttributes l1 l2 ∧
          (a.gene_id ∉ toRemoveList (pySortAtt (l1 ++ l2)) →
            a ∈ MergeAttributes l1 l2)) ∧
      MergeAttributes [scnG1] [scnG2] = [scnG1] := by
  constructor
  · intro l1 l2 a b hmem hov
    have hb : b.gene_id ∈ toRemoveList (pySortAtt (l1 ++ l2)) := by
      apply List.mem_filterMap.mpr
      refine ⟨(a, some b), hmem, ?_⟩
      simp [LocationOverlap_eq_some a b hov]
    constructor
    · intro hbmem
      simp only [MergeAttributes] at hbmem
      have := List.mem_filter.mp hbmem
      simp only [decide_eq_true_eq] at this
      exact this.2 hb
    · intro ha
      simp only [MergeAttributes]
      apply List.mem_filter.mpr
      exact ⟨mem_pairwiseList_fst _ _ hmem, by simpa using ha⟩
  · decide

theorem C1_merge_second_dropped_witness :
    scnG2 ∉ MergeAttributes [scnG1] [scnG2] ∧
      (scnG1.gene_id ∉ toRemoveList (pySortAtt ([scnG1] ++ [scnG2])) →
        scnG1 ∈ MergeAttributes [scnG1] [scnG2]) :=
  C1_merge_second_dropped.1 [scnG1] [scnG2] scnG1 scnG2 (by decide) (by decide)

/-- C1 as stated is false: in the chain `a(0,10) b(5,20) c(15,30)` the pair
`(b, c)` overlaps, yet the earlier-starting record `b` does not survive (it was
itself marked through its overlap with `a`). -/
theorem C1_earlier_survives_counterexample :
    ¬ (∀ (l1 l2 : List Attr) (a b : Attr),
        (a, some b) ∈ pairwiseList (pySortAtt (l1 ++ l2)) →
        (LocationOverlap a b).isSome = true →
        b ∉ MergeAttributes l1 l2 ∧ a ∈ MergeAttributes l1 l2) := by
  intro h
  have := (h [chainA, chainB, chainC] [] chainB chainC (by decide) (by decide)).2
  exact absurd this (by decide)

/-- C5 (amended): the merge resolver is a fixed point on sorted lists with no
adjacent overlap: merging such a list with the empty list returns it
unchanged. (The resolver's own output need not be adjacent-overlap-free, so
idempotence on arbitrary outputs fails, see the counterexample.) -/
theorem C5_merge_fixed_point :
    ∀ l : List Attr, List.Sorted attrLe l →
      (∀ a b : Attr, (a, some b) ∈ pairwiseList l → LocationOverlap a b = none) →
      MergeAttributes l [] = l := by
  intro l hs hno
  simp only [MergeAttributes]
  rw [List.append_nil, pySortAtt_sorted_eq hs]
  have hrem : toRemoveList l = [] := by
    apply List.filterMap_eq_nil_iff.mpr
    intro p hp
    rcases p with ⟨a, _ | nc⟩
    · rfl
    · simp only [hno a nc hp, Option.map_none']
  rw [hrem]
  apply List.filter_eq_self.mpr
  intro a _
  simp

theorem C5_merge_fixed_point_witness :
    MergeAttributes [calmA, calmB] [] = [calmA, calmB] :=
  C5_merge_fixed_point [calmA, calmB] (by decide)
    (by
      intro a b h
      have h' : (a, some b) = (calmA, some calmB) ∨
          (a, some b) = (calmB, (none : Option Attr)) := by
        simpa [pairwiseList] using h
      rcases h' with h1 | h1
      · rw [Prod.mk.injEq, Option.some.injEq] at h1
        obtain ⟨ha, hb⟩ := h1
        subst ha
        subst hb
        decide
      · rw [Prod.mk.injEq] at h1
        exact absurd h1.2 (by simp))

/-- C5 as stated is false: one merge pass over `a(0,100) b(5,10) c(50,60)`
drops only `b`, leaving the overlapping pair `a, c` adjacent, so a second pass
drops `c` as well. -/
theorem C5_idempotence_counterexample :
    MergeAttributes (MergeAttributes [nestP, nestQ, nestR] []) [] ≠
      MergeAttributes [nestP, nestQ, nestR] [] := by decide

/-- C7: for two input lists sorted by `(contig_id, start)`, the merge
resolver's output is sorted by the same key and every output record is an
element of the concatenated input. -/
theorem C7_merge_sorted_subset :
    ∀ l1 l2 : List Attr, List.Sorted attrLe l1 → List.Sorted attrLe l2 →
      List.Sorted attrLe (MergeAttributes l1 l2) ∧
        ∀ r ∈ MergeAttributes l1 l2, r ∈ l1 ++ l2 := by
  intro l1 l2 _ _
  constructor
  · have hs : List.Sorted attrLe (pySortAtt (l1 ++ l2)) :=
      List.sorted_insertionSort attrLe _
    simp only [MergeAttributes]
    exact hs.sublist (List.filter_sublist _)
  · intro r hr
    simp only [MergeAttributes, pySortAtt] at hr
    exact (List.mem_insertionSort attrLe).mp (List.mem_of_mem_filter hr)

theorem C7_merge_sorted_subset_witness :
    List.Sorted attrLe (MergeAttributes [scnG1] [scnG2]) ∧
      ∀ r ∈ MergeAttributes [scnG1] [scnG2], r ∈ [scnG1] ++ [scnG2] :=
  C7_merge_sorted_subset [scnG1] [scnG2] (by decide) (by decide)

/-- C10: removal is by gene-id membership, not record identity: every record
of the sorted concatenation whose gene id was marked is excluded from the
output. In the concrete instance a single detected overlap (marking the one
gene id `y`) removes two records, `dupB` and the other-contig record `dupC`
that shares its gene id. -/
theorem C10_removal_by_gene_id :
    (∀ (l1 l2 : List Attr) (r : Attr),
        r ∈ pySortAtt (l1 ++ l2) →
        r.gene_id ∈ toRemoveList (pySortAtt (l1 ++ l2)) →
        r ∉ MergeAttributes l1 l2) ∧
      MergeAttributes [dupA, dupB] [dupC] = [dupA] ∧
      toRemoveList (pySortAtt ([dupA, dupB] ++ [dupC])) = ["y".toList] ∧
      (pySortAtt ([dupA, dupB] ++ [dupC])).length
          - (MergeAttributes [dupA, dupB] [dupC]).length = 2 := by
  refine ⟨?_, by decide, by decide, by decide⟩
  intro l1 l2 r _ hrem hmem
  simp only [MergeAttributes] at hmem
  have := List.mem_filter.mp hmem
  simp only [decide_eq_true_eq] at this
  exact this.2 hrem

theorem C10_removal_by_gene_id_witness :
    dupC ∉ MergeAttributes [dupA, dupB] [dupC] :=
  C10_removal_by_gene_id.1 [dupA, dupB] [dupC] dupC (by decide) (by decide)

/-- C3 (amended): every record of the two GTF normalizers has
`start <= stop`, and so has every record of the alignment-result mapper (it
copies the location pair of the spec-modelled `ExonerateGene` objects, which
carry an ordered pair, 1:1). The embedded `Introns` value carries no floor:
the grouped-by-identity converter emits exactly one record per gene group,
with `Introns` equal to that group's exon-row count minus one — hence
non-negative whenever each group contains at least one exon-typed row, and
equal to `0` for a single-exon gene — while the grouped-by-blank-line parser
writes, on each CDS row, the exon rows counted so far in the group minus
one. A group with no exon-typed rows yields `Introns = -1` (see the
counterexample). -/
theorem C3_normalized_invariants :
    (∀ (gtf : List Row) (tag : PyStr) (rec : Attr),
        rec ∈ GeneMarkGTFConverter gtf tag → rec.start ≤ rec.stop) ∧
      (∀ (gtf : List Row) (tag : PyStr),
        GeneMarkGTFConverter gtf tag =
          pySortAtt ((chunkByKey gtf).map (gmEmitChunk tag [] 0))) ∧
      (∀ (gtf : List Row) (tag : PyStr) (rec : Attr),
        rec ∈ GeneMarkGTFConverter gtf tag →
        ∃ c ∈ chunkByKey gtf, ∃ gid,
          rec.ann = gmAnnString gid ((countExon c : Int) - 1)) ∧
      (∀ (gtf : List Row) (tag : PyStr),
        (∀ c ∈ chunkByKey gtf, ∃ row ∈ c, fld row 2 = "exon".toList) →
        ∀ rec ∈ GeneMarkGTFConverter gtf tag,
          ∃ gid k, 0 ≤ k ∧ rec.ann = gmAnnString gid k) ∧
      (∀ (gtf : List Row) (tag : PyStr) (rec : Attr),
        rec ∈ TransDecoderGTFToAttributes gtf tag → rec.start ≤ rec.stop) ∧
      (∀ (row : Row) (st : TDState),
        row.length = 9 → fld row 2 = "CDS".toList →
        (tdProcessRow row st).annotations =
          tdAnnString ((tdProcessRow row st).gene_id) (st.exon_count - 1)) ∧
      (∀ (genes : List ExonerateGeneM) (tag : PyStr),
        (∀ g ∈ genes, ExonerateGeneWF g) →
        ∀ rec ∈ GetExonerateAttributes genes tag, rec.start ≤ rec.stop) ∧
      GeneMarkGTFConverter [gmRowExon] "t1".toList =
        [⟨"chr1".toList, "geneA".toList, 11, 250, gmAnnString "geneA".toList 0,
          "t1".toList⟩] ∧
      annIntrons (gmAnnString "geneA".toList 0) = 0 := by
  refine ⟨?_, ?_, ?_, ?_, ?_, ?_, ?_, by decide, by decide⟩
  · intro gtf tag rec h
    simp only [GeneMarkGTFConverter, pySortAtt] at h
    exact gmLoop_start_le tag _ _ _ rec ((List.mem_insertionSort attrLe).mp h)
  · intro gtf tag
    exact gmConverter_eq_chunks gtf tag
  · intro gtf tag rec h
    exact gmConverter_ann_group gtf tag rec h
  · intro gtf tag hgr rec h
    obtain ⟨c, hc, gid, hann⟩ := gmConverter_ann_group gtf tag rec h
    obtain ⟨row, hrow, hex⟩ := hgr c hc
    have hpos := countExon_pos hrow hex
    exact ⟨gid, (countExon c : Int) - 1, by omega, hann⟩
  · intro gtf tag rec h
    simp only [TransDecoderGTFToAttributes, pySortAtt] at h
    exact tdLoop_start_le tag _ _ rec ((List.mem_insertionSort attrLe).mp h)
  · intro row st _ hcds
    have hne : ¬ (fld row 2 = "exon".toList) := by
      rw [hcds]
      decide
    simp [tdProcessRow, hcds, hne]
  · intro genes tag hord rec h
    simp only [GetExonerateAttributes, List.mem_map] at h
    obtain ⟨g, hg, hrec⟩ := h
    rw [← hrec]
    exact (hord g hg).1

theorem C3_normalized_invariants_witness :
    (⟨"chr1".toList, "geneA".toList, 11, 250, gmAnnString "geneA".toList 0,
        "t1".toList⟩ : Attr).start ≤
      (⟨"chr1".toList, "geneA".toList, 11, 250, gmAnnString "geneA".toList 0,
        "t1".toList⟩ : Attr).stop ∧
    (∃ gid k, 0 ≤ k ∧
      (⟨"chr1".toList, "geneC".toList, 11, 100, gmAnnString "geneC".toList 0,
        "t1".toList⟩ : Attr).ann = gmAnnString gid k) ∧
    (tdProcessRow tdScnRow tdInit).annotations =
      tdAnnString ((tdProcessRow tdScnRow tdInit).gene_id)
        (tdInit.exon_count - 1) ∧
    ∀ rec ∈ GetExonerateAttributes [exGeneW] "t1".toList,
      rec.start ≤ rec.stop :=
  ⟨C3_normalized_invariants.1 [gmRowExon] "t1".toList _ (by decide),
    C3_normalized_invariants.2.2.2.1 [gmRowExonC, gmRowCDSC] "t1".toList
      (by decide) _ (by decide),
    C3_normalized_invariants.2.2.2.2.2.1 tdScnRow tdInit (by decide) (by decide),
    C3_normalized_invariants.2.2.2.2.2.2.1 [exGeneW] "t1".toList (by decide)⟩

/-- C3 as stated is false: a GeneMark group containing no exon-typed row (a
CDS-only gene) is converted with `Introns = 0 - 1 = -1`, a negative embedded
intron count. -/
theorem C3_nonneg_introns_counterexample :
    ¬ (∀ (gtf : List Row) (tag : PyStr) (rec : Attr),
        rec ∈ GeneMarkGTFConverter gtf tag → 0 ≤ annIntrons rec.ann) := by
  intro h
  have := h [gmRowCDS] "t1".toList
    ⟨"chr1".toList, "geneB".toList, 11, 250,
      "GeneMark=geneB;IS=False;Introns=-1".toList, "t1".toList⟩ (by decide)
  exact absurd this (by decide)

/-- C4: the grouped-by-blank-line parser rebases each relative CDS coordinate
`r` to `globalStart + r - 1`, where `globalStart` is parsed from the synthetic
`<contig>_NCR_<globalStart>_<globalEnd>` identifier; the spec's scenario row
`(120, 340)` under `chr3_NCR_5000_6000` normalizes to the absolute span
`(5119, 5339)` with contig id `chr3`. -/
theorem C4_td_coordinate_rebase :
    (∀ (row : Row) (st : TDState),
        row.length = 9 → fld row 2 = "CDS".toList →
        (tdProcessRow row st).locs =
          [tdGlobalStart (fld row 0) + pyInt (fld row 3) - 1,
           tdGlobalStart (fld row 0) + pyInt (fld row 4) - 1]) ∧
      TransDecoderGTFToAttributes [tdScnRow, []] "t1".toList =
        [⟨"chr3".toList, "g1.p1".toList, 5119, 5339,
          tdAnnString "g1.p1".toList (-1), "t1".toList⟩] := by
  constructor
  · intro row st _ hcds
    simp [tdProcessRow, hcds]
  · decide

theorem C4_td_coordinate_rebase_witness :
    (tdProcessRow tdScnRow tdInit).locs =
      [tdGlobalStart (fld tdScnRow 0) + pyInt (fld tdScnRow 3) - 1,
       tdGlobalStart (fld tdScnRow 0) + pyInt (fld tdScnRow 4) - 1] :=
  C4_td_coordinate_rebase.1 tdScnRow tdInit (by decide) (by decide)

/-- A gene call starting at position 0, for the carver's leading-gap edge
case. -/
def zeroGene : Attr := attrOf "chr1" "z" 0 10

/-- The materializer's output on `[matRec]` with full stores: both sequences
and the record itself carry the canonical identifier `t1|chr1_1_9`. -/
def matOut : GeneModelOut :=
  ⟨[⟨"t1|chr1_1_9".toList, "MK".toList⟩], [⟨"t1|chr1_1_9".toList, "MK".toList⟩],
    [⟨"chr1".toList, "t1|chr1_1_9".toList, 1, 9,
      "GeneMark=g1;IS=False;Introns=0".toList, "t0".toList⟩]⟩

theorem cgmsLoop_error_of_miss {exg : List ExonerateGeneM}
    {gp gn tp tn : SeqStore} {tag : PyStr} {gene : Attr} :
    ∀ attrs : List Attr, gene ∈ attrs →
      (("TransDecoder".toList.isPrefixOf gene.ann = true ∧
          (tp gene.gene_id = none ∨ tn gene.gene_id = none)) ∨
        ("GeneMark".toList.isPrefixOf gene.ann = true ∧
          (gp gene.gene_id = none ∨ gn gene.gene_id = none))) →
      ∃ e, cgmsLoop exg gp gn tp tn tag attrs = .error e
  | [], hmem, _ => by simp at hmem
  | hd :: tl, hmem, hmiss => by
    rcases List.mem_cons.mp hmem with heq | htl
    · subst heq
      have herr : ∃ e, cgmsStep1 gp gn tp tn tag gene = .error e := by
        rcases hmiss with ⟨hpre, hm⟩ | ⟨hpre, hm⟩
        · exact cgmsStep1_error_td hpre hm
        · exact cgmsStep1_error_gm hpre hm
      obtain ⟨e1, he1⟩ := herr
      exact ⟨e1, by rw [cgmsLoop]; simp only [he1]⟩
    · exact cgmsLoop_error_cons (cgmsLoop_error_of_miss tl htl hmiss)

/-- C6 (amended): if the first gene of a contig starts at position 0, no
record with gap start 0 is carved for that contig; the trailing gap record,
running from just after the last gene's end to the contig's end, is emitted
exactly when the contig has a call whose last record differs from its first —
in particular it is never emitted for a single-gene contig (see the
counterexample), because the `index == 0` branch captures the last pairwise
step there. -/
theorem C6_carver_edge_cases :
    (∀ (coding : List Attr) (seq : ContigM) (g0 : Attr),
        coding.head? = some g0 → g0.start = 0 → (∀ g ∈ coding, 0 ≤ g.stop) →
        ∀ r ∈ carveContig coding seq, r.a ≠ 0) ∧
      (∀ (coding : List Attr) (seq : ContigM) (g0 gn : Attr),
        coding.head? = some g0 → coding.getLast? = some gn → gn ≠ g0 →
        (⟨seq.id, gn.stop + 1, (seq.seq.length : Int) + 1,
          pySliceFrom seq.seq gn.stop⟩ : NCRRec) ∈ carveContig coding seq) := by
  constructor
  · intro coding seq g0 hhead hzero hpos r hr
    simp only [carveContig] at hr
    obtain ⟨p, hp, hfp⟩ := List.mem_filterMap.mp hr
    rcases p with ⟨g, onext⟩
    simp only [] at hfp
    by_cases hc : coding.head? = some g
    · rw [if_pos hc] at hfp
      have hg : g = g0 := Option.some.inj (hc.symm.trans hhead)
      by_cases hnz : g.start ≠ 0
      · rw [hg, hzero] at hnz
        exact absurd rfl hnz
      · rw [if_neg hnz] at hfp
        exact absurd hfp (by simp)
    · rw [if_neg hc] at hfp
      have hstop : 0 ≤ g.stop := hpos g (mem_pairwiseList_fst _ _ hp)
      rcases onext with _ | ng
      · simp only [Option.some.injEq] at hfp
        rw [← hfp]
        intro hcontra
        simp only [] at hcontra
        omega
      · simp only [Option.some.injEq] at hfp
        rw [← hfp]
        intro hcontra
        simp only [] at hcontra
        omega
  · intro coding seq g0 gn hhead hlast hne
    have hcne : coding ≠ [] := by
      rintro rfl
      simp at hlast
    have hgl : coding.getLast hcne = gn := by
      rw [List.getLast?_eq_getLast coding hcne] at hlast
      exact Option.some.inj hlast
    simp only [carveContig]
    apply List.mem_filterMap.mpr
    refine ⟨(coding.getLast hcne, none), getLast_none_mem_pairwiseList coding hcne, ?_⟩
    simp only []
    rw [if_neg (by
      rw [hhead, hgl]
      intro hcc
      exact hne (Option.some.inj hcc).symm)]
    rw [hgl]

theorem C6_carver_edge_cases_witness :
    (∀ r ∈ carveContig [zeroGene] carveContigIn, r.a ≠ 0) ∧
      (⟨carveContigIn.id, duoG2.stop + 1, (carveContigIn.seq.length : Int) + 1,
        pySliceFrom carveContigIn.seq duoG2.stop⟩ : NCRRec) ∈
        carveContig [duoG1, duoG2] carveContigIn :=
  ⟨C6_carver_edge_cases.1 [zeroGene] carveContigIn zeroGene rfl rfl (by decide),
    C6_carver_edge_cases.2 [duoG1, duoG2] carveContigIn duoG1 duoG2 rfl (by decide)
      (by decide)⟩

/-- C6 as stated is false: on a contig whose call set is the single gene
`soloGene (5, 10)`, the carver emits only the leading record; no trailing
record from position 11 to the contig's end appears. -/
theorem C6_trailing_gap_counterexample :
    ¬ (∀ (coding : List Attr) (seq : ContigM) (gn : Attr),
        coding.getLast? = some gn →
        (⟨seq.id, gn.stop + 1, (seq.seq.length : Int) + 1,
          pySliceFrom seq.seq gn.stop⟩ : NCRRec) ∈ carveContig coding seq) := by
  intro h
  have := h [soloGene] carveContigIn soloGene (by decide)
  exact absurd this (by decide)

/-- C2: evaluation of the carver at the failing input. On the 30-base contig
with the non-overlapping sorted calls `(5, 10)` and `(20, 25)` the emitted
records are a leading slice of 3 bases labelled `[0, 4]` and a trailing slice
of 5 bases; the gap between the two genes is never emitted (the `index == 0`
branch swallows the first pairwise step) and the leading slice stops one base
short of its own label, so the carved regions plus the gene spans cover 20 of
the 30 positions instead of tiling the contig. -/
theorem C2_tiling_failure_eval :
    carveContigIn.seq.length = 30 ∧
      extractNCRRecs [duoG1, duoG2] [carveContigIn] =
        [⟨"chr1".toList, 0, 4, "ACG".toList⟩,
         ⟨"chr1".toList, 26, 31, "CGTAC".toList⟩] ∧
      (((extractNCRRecs [duoG1, duoG2] [carveContigIn]).map
            (fun r => (r.extract.length : Int))).sum
          + ([duoG1, duoG2].map (fun g => g.stop - g.start + 1)).sum) = 20 := by
  decide

/-- C8: a store lookup miss for a TransDecoder- or GeneMark-origin record
aborts the whole materialization with an error rather than skipping the
record. -/
theorem C8_lookup_miss_aborts :
    ∀ (attributes : List Attr) (exg : List ExonerateGeneM)
      (gp gn tp tn : SeqStore) (tag : PyStr) (gene : Attr),
      gene ∈ attributes →
      (("TransDecoder".toList.isPrefixOf gene.ann = true ∧
          (tp gene.gene_id = none ∨ tn gene.gene_id = none)) ∨
        ("GeneMark".toList.isPrefixOf gene.ann = true ∧
          (gp gene.gene_id = none ∨ gn gene.gene_id = none))) →
      ∃ e, ConstructGeneModelSets attributes exg gp gn tp tn tag = .error e := by
  intro attrs exg gp gn tp tn tag gene hmem hmiss
  obtain ⟨e, he⟩ := @cgmsLoop_error_of_miss exg gp gn tp tn tag gene attrs hmem hmiss
  exact ⟨e, by simp only [ConstructGeneModelSets, he]⟩

theorem C8_lookup_miss_aborts_witness :
    ∃ e, ConstructGeneModelSets [matRec] [] emptyStore fullStore fullStore
      fullStore "t1".toList = .error e :=
  C8_lookup_miss_aborts [matRec] [] emptyStore fullStore fullStore fullStore
    "t1".toList matRec (by decide) (Or.inr ⟨by decide, Or.inl rfl⟩)

/-- C9 (amended): the materializer does mutate the handed-off records — it
rewrites `gene_id` in place — but it preserves every other field of every
record, as well as the record count and order. -/
theorem C9_materializer_preserves_other_fields :
    ∀ (attributes : List Attr) (exg : List ExonerateGeneM)
      (gp gn tp tn : SeqStore) (tag : PyStr) (out : GeneModelOut),
      ConstructGeneModelSets attributes exg gp gn tp tn tag = .ok out →
      List.Forall₂ agreesExceptGeneId attributes out.final_attributes := by
  intro attrs exg gp gn tp tn tag out h
  simp only [ConstructGeneModelSets] at h
  rcases hl : cgmsLoop exg gp gn tp tn tag attrs with e | ⟨ps, ns, atts⟩ <;>
    rw [hl] at h
  · simp at h
  · simp only [Except.ok.injEq] at h
    rw [← h]
    exact cgmsLoop_agrees attrs ps ns atts hl

theorem C9_materializer_preserves_other_fields_witness :
    List.Forall₂ agreesExceptGeneId [matRec] matOut.final_attributes :=
  C9_materializer_preserves_other_fields [matRec] [] fullStore fullStore
    fullStore fullStore "t1".toList matOut rfl

/-- C9 as stated is false: on a GeneMark-origin record with both sequences
present, materialization completes successfully but the returned attribute
list differs from the input — the record's `gene_id` has been rewritten in
place to the canonical `t1|chr1_1_9`. -/
theorem C9_no_mutation_counterexample :
    ¬ (∀ (attributes : List Attr) (exg : List ExonerateGeneM)
        (gp gn tp tn : SeqStore) (tag : PyStr) (out : GeneModelOut),
        ConstructGeneModelSets attributes exg gp gn tp tn tag = .ok out →
        out.final_attributes = attributes) := by
  intro h
  have := h [matRec] [] fullStore fullStore fullStore fullStore "t1".toList
    matOut rfl
  exact absurd this (by decide)

end PanGuess
